import Mathlib

/-!
Verification of the sneequals access-tracking and comparison engine.

The definitions below are a shallow embedding of the engine in
`src/unnamed/part_004` (the current `Watcher` implementation; the same
functions also appear, in slightly older form, in `src/src/index.ts`)
together with `src/src/util.ts`.

Modelling conventions:
* JS object identity is an address (`Nat`) into an association-list heap.
* Primitives and functions are `Prim` values (functions carry an id and are
  compared by identity, mirroring `typeof f === 'function'` being excluded
  by `isObject`).
* A facade (revocable `Proxy`) is a fresh address registered in the global
  `proxySource` table, which models the hidden `kSource` back-reference.
* JS `Set` objects are lists with insertion-order `setAdd`.
* The prototype chain is not modelled: `has` checks consult own keys only,
  and `maybeUnfreeze` is the identity because frozen inputs are not
  modelled.  Neither is used by any claim below.
-/

namespace Sneequals

/-- Property keys (JS string keys; symbol keys other than the hidden
`kSource` are not distinguished from strings). -/
abbrev Key := String

/-- JS primitives and functions: everything `isObject` rejects. -/
inductive Prim where
  | undefinedV
  | null
  | boolV (b : Bool)
  | numV (n : Int)
  | strV (s : String)
  | funcV (id : Nat)
deriving DecidableEq, Repr

/-- A JS value: a primitive/function, or an object identity (heap address). -/
inductive Value where
  | prim (p : Prim)
  | obj (a : Nat)
deriving DecidableEq, Repr

/-- Embeds `isObject` from `src/src/util.ts`:
`value !== null && typeof value === 'object'`. -/
def isObject : Value → Bool
  | .obj _ => true
  | .prim _ => false

/-- An object's own state: own fields in `Reflect.ownKeys` order, and
whether its prototype is `Object.prototype`/`Array.prototype` (the only
prototypes `[kTrack]` will wrap). -/
structure Obj where
  fields : List (Key × Value)
  plainProto : Bool
deriving DecidableEq, Repr

/-- The heap: object addresses to object states. -/
abbrev Heap := List (Nat × Obj)

/-- Association-list lookup keyed by address. -/
def alookup {α : Type} (a : Nat) : List (Nat × α) → Option α
  | [] => none
  | (b, x) :: rest => if a = b then some x else alookup a rest

/-- Association-list update: replace in place, or append when absent
(mirrors `Map.set`/`WeakMap.set`). -/
def aset {α : Type} (a : Nat) (x : α) : List (Nat × α) → List (Nat × α)
  | [] => [(a, x)]
  | (b, y) :: rest => if a = b then (a, x) :: rest else (b, y) :: aset a x rest

/-- Field lookup inside an object's own fields. -/
def klookup (k : Key) : List (Key × Value) → Option Value
  | [] => none
  | (k2, v) :: rest => if k = k2 then some v else klookup k rest

/-- JS `Set.prototype.add`: append if not already present. -/
def setAdd {α : Type} [DecidableEq α] (l : List α) (a : α) : List α :=
  if a ∈ l then l else l ++ [a]

/-- Embeds `Reflect.ownKeys(target)` for a heap object: its own keys in
stored order (absent address: no own keys). -/
def reflectOwnKeys (h : Heap) (a : Nat) : List Key :=
  match alookup a h with
  | some o => o.fields.map Prod.fst
  | none => []

/-- Embeds `Reflect.get(target, key)` / `record[key]`: the own field value,
or `undefined` when absent. -/
def reflectGetField (h : Heap) (a : Nat) (k : Key) : Value :=
  match alookup a h with
  | some o => (klookup k o.fields).getD (.prim .undefinedV)
  | none => .prim .undefinedV

/-- Embeds `Reflect.getOwnPropertyDescriptor(record, key) !== undefined`. -/
def hasOwnProp (h : Heap) (a : Nat) (k : Key) : Bool :=
  match alookup a h with
  | some o => (klookup k o.fields).isSome
  | none => false

/-- Embeds `Reflect.has(record, key)` (prototype-chain hits on builtin
prototypes are not modelled, so this coincides with own-key presence). -/
def hasProp (h : Heap) (a : Nat) (k : Key) : Bool :=
  hasOwnProp h a k

/-- Embeds `hasSameOwnKeys` from `src/src/util.ts` applied to the two key
arrays: length check followed by the index-by-index `aKeys[i] !== bKeys[i]`
loop, i.e. order-sensitive list equality. -/
def hasSameOwnKeys : List Key → List Key → Bool
  | [], [] => true
  | a :: as2, b :: bs => a == b && hasSameOwnKeys as2 bs
  | _ :: _, [] => false
  | [], _ :: _ => false

/-- The global side of the model: the heap plus the `kSource`
back-references (proxy address to source address) and a fresh-address
counter for newly created proxies. -/
structure World where
  heap : Heap
  proxySource : List (Nat × Nat)
  nextAddr : Nat
deriving DecidableEq, Repr

/-- Embeds the module-level `getSource`: one step of `value[kSource]`,
falling back to the value itself. -/
def getSource (wd : World) (v : Value) : Value :=
  match v with
  | .prim _ => v
  | .obj a =>
    match alookup a wd.proxySource with
    | some s => .obj s
    | none => v

/-- `getSource` on a known object address. -/
def sourceAddr (wd : World) (a : Nat) : Nat :=
  (alookup a wd.proxySource).getD a

/-- A `TouchedEntry` of the ledger: `keys` (values read), `has` (`in`
checks), and `hasOwn` where `none` models the `kAllOwnKeys` marker and
`some ks` the set of individually checked own keys. -/
structure TouchedEntry where
  keys : List Key
  has : List Key
  hasOwn : Option (List Key)
deriving DecidableEq, Repr

/-- A ledger slot: either the terminal `kSelf` marker or a `TouchedEntry`. -/
inductive TouchState where
  | self
  | entry (e : TouchedEntry)
deriving DecidableEq, Repr

/-- The fresh entry `#touch` creates: `{ keys: new Set(), hasOwn: new Set(),
has: new Set() }`. -/
def emptyEntry : TouchedEntry := ⟨[], [], some []⟩

/-- Per-watcher state: the source-keyed proxy cache `#proxyMap`, the touch
ledger `kTouched`, the pending `#revokes` list, and the set of facades whose
revoke has been called. -/
structure Watcher where
  proxyMap : List (Nat × Nat)
  touched : List (Nat × TouchState)
  revokes : List Nat
  revoked : List Nat
deriving DecidableEq, Repr

/-- A watcher with no proxies and an empty ledger (`new Watcher()`). -/
def emptyWatcher : Watcher := ⟨[], [], [], []⟩

/-- Embeds `this.#touch(source)?.keys.add(key)`: create the entry if absent,
no-op when the slot is terminal. -/
def touchAddKey (w : Watcher) (s : Nat) (k : Key) : Watcher :=
  match alookup s w.touched with
  | some .self => w
  | some (.entry e) =>
    { w with touched := aset s (.entry { e with keys := setAdd e.keys k }) w.touched }
  | none =>
    { w with touched := aset s (.entry { emptyEntry with keys := [k] }) w.touched }

/-- Embeds `this.#touch(source)?.has.add(key)`. -/
def touchAddHas (w : Watcher) (s : Nat) (k : Key) : Watcher :=
  match alookup s w.touched with
  | some .self => w
  | some (.entry e) =>
    { w with touched := aset s (.entry { e with has := setAdd e.has k }) w.touched }
  | none =>
    { w with touched := aset s (.entry { emptyEntry with has := [k] }) w.touched }

/-- Embeds the `getOwnPropertyDescriptor` trap's ledger update: add `key` to
`hasOwn` unless the entry is already in `kAllOwnKeys` mode (or terminal). -/
def touchAddHasOwn (w : Watcher) (s : Nat) (k : Key) : Watcher :=
  match alookup s w.touched with
  | some .self => w
  | some (.entry e) =>
    match e.hasOwn with
    | none => w
    | some ks =>
      { w with touched := aset s (.entry { e with hasOwn := some (setAdd ks k) }) w.touched }
  | none =>
    { w with touched := aset s (.entry { emptyEntry with hasOwn := some [k] }) w.touched }

/-- Embeds the `ownKeys` trap's ledger update: `entry.hasOwn = kAllOwnKeys`
(no-op when terminal). -/
def touchAllOwnKeys (w : Watcher) (s : Nat) : Watcher :=
  match alookup s w.touched with
  | some .self => w
  | some (.entry e) =>
    { w with touched := aset s (.entry { e with hasOwn := none }) w.touched }
  | none =>
    { w with touched := aset s (.entry { emptyEntry with hasOwn := none }) w.touched }

/-- Embeds `this[kTouched].set(source, kSelf)`: unconditionally mark the
slot terminal. -/
def setSelfTouched (w : Watcher) (s : Nat) : Watcher :=
  { w with touched := aset s .self w.touched }

/-- Embeds `Watcher.isChanged` (src/unnamed/part_004 lines 180-241) with a
fuel parameter bounding the recursion depth into `touched.keys`; fuel 0
returns `false`.  Primitives and functions compare by identity; objects
resolve to their sources, untouched sources count as unchanged, terminal
sources as changed, and entries check `hasOwn` / `has` / `keys` in the
source's order (the early-return loops become disjunctions). -/
def isChangedF : Nat → Watcher → World → Value → Value → Bool
  | 0, _, _, _, _ => false
  | fuel + 1, w, wd, oldValue, newValue =>
    match oldValue, newValue with
    | .obj ao, .obj no =>
      let os := sourceAddr wd ao
      let ns := sourceAddr wd no
      if os = ns then false
      else
        match alookup os w.touched with
        | none => false
        | some .self => true
        | some (.entry e) =>
          let ownPart :=
            match e.hasOwn with
            | none => !hasSameOwnKeys (reflectOwnKeys wd.heap os) (reflectOwnKeys wd.heap ns)
            | some ks => ks.any fun k => hasOwnProp wd.heap os k != hasOwnProp wd.heap ns k
          let hasPart := e.has.any fun k => hasProp wd.heap os k != hasProp wd.heap ns k
          let keysPart := e.keys.any fun k =>
            isChangedF fuel w wd (reflectGetField wd.heap os k) (reflectGetField wd.heap ns k)
          ownPart || hasPart || keysPart
    | _, _ => decide (oldValue ≠ newValue)

/-- Whether `[kTrack]` considers the value's prototype trackable: forwards
through a proxy to its target, then checks the heap object's `plainProto`
(`Object.getPrototypeOf(value)` being `Array.prototype` or
`Object.prototype`); unknown addresses behave as plain empty objects. -/
def plainProtoOf (wd : World) (a : Nat) : Bool :=
  match alookup (sourceAddr wd a) wd.heap with
  | some o => o.plainProto
  | none => true

/-- Embeds `Watcher.[kTrack]` (src/unnamed/part_004 lines 244-335):
primitives and functions pass through, objects with a non-plain prototype
pass through, a cached facade for the value's source is returned as-is, and
otherwise a fresh revocable facade is created, registered in `#proxyMap`
(keyed by the source), given a `kSource` back-reference, and pushed onto
`#revokes`.  `maybeUnfreeze` is the identity here (frozen inputs are not
modelled). -/
def kTrack (w : Watcher) (wd : World) (v : Value) : Watcher × World × Value :=
  match v with
  | .prim _ => (w, wd, v)
  | .obj a =>
    if !plainProtoOf wd a then (w, wd, v)
    else
      let s := sourceAddr wd a
      match alookup s w.proxyMap with
      | some p => (w, wd, .obj p)
      | none =>
        let p := wd.nextAddr
        ({ w with proxyMap := aset s p w.proxyMap, revokes := w.revokes ++ [p] },
         { wd with proxySource := aset p s wd.proxySource, nextAddr := p + 1 },
         .obj p)

/-- Embeds the facade's `get` trap for an ordinary key (the hidden `kSource`
key is the `proxySource` table itself): a revoked facade throws, otherwise
the key is recorded in the ledger's `keys`, the field is read from the
target and recursively tracked.  The nested-proxy `ignoreKey` bookkeeping
never fires with a single interception layer and is omitted. -/
def proxyGet (w : Watcher) (wd : World) (p : Nat) (k : Key) :
    Except Unit (Watcher × World × Value) :=
  if p ∈ w.revoked then .error ()
  else
    match alookup p wd.proxySource with
    | none => .error ()
    | some s =>
      let w1 := touchAddKey w s k
      .ok (kTrack w1 wd (reflectGetField wd.heap s k))

/-- Embeds the facade's `has` trap: record the key in the ledger's `has`
set and forward `Reflect.has` to the target. -/
def proxyHas (w : Watcher) (wd : World) (p : Nat) (k : Key) :
    Except Unit (Watcher × Bool) :=
  if p ∈ w.revoked then .error ()
  else
    match alookup p wd.proxySource with
    | none => .error ()
    | some s => .ok (touchAddHas w s k, hasProp wd.heap s k)

/-- Embeds the facade's `getOwnPropertyDescriptor` trap: record the key in
the ledger's `hasOwn` set (unless in `kAllOwnKeys` mode) and forward the
presence answer. -/
def proxyGetOwnDescriptor (w : Watcher) (wd : World) (p : Nat) (k : Key) :
    Except Unit (Watcher × Bool) :=
  if p ∈ w.revoked then .error ()
  else
    match alookup p wd.proxySource with
    | none => .error ()
    | some s => .ok (touchAddHasOwn w s k, hasOwnProp wd.heap s k)

/-- Embeds the facade's `ownKeys` trap: set the ledger's `hasOwn` to
`kAllOwnKeys` and forward `Reflect.ownKeys` to the target. -/
def proxyOwnKeys (w : Watcher) (wd : World) (p : Nat) :
    Except Unit (Watcher × List Key) :=
  if p ∈ w.revoked then .error ()
  else
    match alookup p wd.proxySource with
    | none => .error ()
    | some s => .ok (touchAllOwnKeys w s, reflectOwnKeys wd.heap s)

/-- Embeds `returnFalse` from `src/src/util.ts`, the handler installed for
all five mutation traps. -/
def returnFalse : Bool := false

/-- The five mutation attempts a facade can receive. -/
inductive MutOp where
  | setProp (k : Key) (v : Value)
  | deleteProp (k : Key)
  | defineProp (k : Key) (v : Value)
  | setProtoOf
  | preventExt
deriving DecidableEq, Repr

/-- A mutation attempt on a facade under strict-mode semantics: a revoked
facade throws outright; otherwise the trap (`returnFalse`) is consulted and
its `false` answer makes the language operation throw a `TypeError`, so the
world is returned unmodified only on the (unreachable) `true` branch. -/
def proxyMutate (w : Watcher) (wd : World) (p : Nat) (op : MutOp) :
    Except Unit (Watcher × World) :=
  if p ∈ w.revoked then .error ()
  else if returnFalse then .ok (w, wd)
  else .error ()

/-- Embeds `Watcher.stop`: call every pending revoke and clear the list. -/
def Watcher.stop (w : Watcher) : Watcher :=
  { w with revokes := [], revoked := w.revoked ++ w.revokes }

/-- The state threaded through `#unwrap`: the watcher, the world, and the
per-call `visited` set. -/
structure UState where
  w : Watcher
  wd : World
  visited : List Nat
deriving DecidableEq, Repr

/-- Update one own field of a generated object in place (the key is always
present when called, since it came from `Reflect.ownKeys`). -/
def setFieldIn (k : Key) (v : Value) : List (Key × Value) → List (Key × Value)
  | [] => []
  | (k2, v2) :: rest => if k = k2 then (k, v) :: rest else (k2, v2) :: setFieldIn k v rest

/-- Embeds `(result as AbstractRecord)[key] = unwrappedValue` on a generated
object. -/
def heapSetField (h : Heap) (a : Nat) (k : Key) (v : Value) : Heap :=
  h.map fun e => if e.1 = a then (e.1, { e.2 with fields := setFieldIn k v e.2.fields }) else e

/-- Embeds the field loop of `#unwrap`: for each own key (snapshot taken at
entry), recursively unwrap the current field value and, when its identity
changed, write it back and record the key in the generated object's ledger
entry.  The recursive call is the `rec` parameter. -/
def unwrapFields (rec : UState → Value → UState × Value) (a : Nat) :
    UState → List Key → UState
  | st, [] => st
  | st, k :: ks =>
    let value := reflectGetField st.wd.heap a k
    let r := rec st value
    let st2 :=
      if r.2 ≠ value then
        { w := touchAddKey r.1.w a k,
          wd := { r.1.wd with heap := heapSetField r.1.wd.heap a k r.2 },
          visited := r.1.visited }
      else r.1
    unwrapFields rec a st2 ks

/-- Embeds `Watcher.#unwrap` (src/unnamed/part_004 lines 353-388) with a
fuel parameter (fuel 0 returns the value as-is): primitives pass through; a
value whose source has a facade is replaced by that source, whose ledger
slot becomes terminal; a generated object already in `visited` is returned
as-is; otherwise it is added to `visited` and its fields are processed. -/
def unwrapGo : Nat → UState → Value → UState × Value
  | 0, st, v => (st, v)
  | fuel + 1, st, v =>
    match v with
    | .prim _ => (st, v)
    | .obj a =>
      let s := sourceAddr st.wd a
      if (alookup s st.w.proxyMap).isSome then
        ({ st with w := setSelfTouched st.w s }, .obj s)
      else if a ∈ st.visited then (st, v)
      else
        let st1 : UState := { st with visited := a :: st.visited }
        let keys := reflectOwnKeys st1.wd.heap a
        (unwrapFields (fun st2 v2 => unwrapGo fuel st2 v2) a st1 keys, .obj a)

/-- The heap's address set (each address once). -/
def heapAddrs (h : Heap) : List Nat := (h.map Prod.fst).dedup

/-- Fuel bound for `#unwrap`: the number of heap objects not yet visited. -/
def unvisitedCount (st : UState) : Nat :=
  (heapAddrs st.wd.heap).countP fun a => decide (a ∉ st.visited)

/-- Embeds `Watcher.unwrap`: run `#unwrap` with a fresh `visited` set and
enough fuel for every heap object. -/
def Watcher.unwrap (w : Watcher) (wd : World) (v : Value) : UState × Value :=
  unwrapGo (unvisitedCount ⟨w, wd, []⟩ + 1) ⟨w, wd, []⟩ v

/-- Embeds `watchAll`'s `values.map((value) => watcher[kTrack](value))`
threading the watcher and world through the list. -/
def trackAll (w : Watcher) (wd : World) : List Value → Watcher × World × List Value
  | [] => (w, wd, [])
  | v :: vs =>
    let r := kTrack w wd v
    let rest := trackAll r.1 r.2.1 vs
    (rest.1, rest.2.1, r.2.2 :: rest.2.2)

/-- A memoize cache entry: `{ sources, watcher, result }`. -/
structure CacheEntry where
  sources : List Value
  cachedWatcher : Watcher
  result : Value
deriving DecidableEq, Repr

/-- The memoized closure's state: the `WeakMap` keyed by the first object
source, plus the `lastEntry` single slot. -/
structure MemoState where
  cacheMap : List (Nat × CacheEntry)
  lastEntry : Option CacheEntry
deriving DecidableEq, Repr

/-- Embeds `sources.find(isObject)`. -/
def findObjAddr : List Value → Option Nat
  | [] => none
  | .obj a :: _ => some a
  | .prim _ :: rest => findObjAddr rest

/-- Embeds the memoize validation loop: `cached.watcher.isChanged` must be
false for every positional argument (lengths are equal when consulted). -/
def allUnchanged (fuel : Nat) (w : Watcher) (wd : World) :
    List Value → List Value → Bool
  | [], _ => true
  | _ :: _, [] => true
  | a :: as2, b :: bs => !isChangedF fuel w wd a b && allUnchanged fuel w wd as2 bs

/-- Embeds the memoize cached-entry selection: the `WeakMap` entry for the
first object source if any, with `cached ??= lastEntry` as fallback. -/
def memoLookup (ms : MemoState) (sources : List Value) : Option CacheEntry :=
  match findObjAddr sources with
  | some k =>
    match alookup k ms.cacheMap with
    | some c => some c
    | none => ms.lastEntry
  | none => ms.lastEntry

/-- The memoize hit test: a cached entry with the same argument count whose
comparator reports no change for every positional argument. -/
def memoHit (fuel : Nat) (ms : MemoState) (wd : World) (params : List Value) :
    Option CacheEntry :=
  let sources := params.map (getSource wd)
  match memoLookup ms sources with
  | some c =>
    if c.sources.length = sources.length ∧
        allUnchanged fuel c.cachedWatcher wd c.sources sources = true then
      some c
    else none
  | none => none

/-- Embeds the memoize miss path: build a fresh watcher over the arguments
(`watchAll`), invoke `fn` on the facades (`fn` may in turn use the facades,
so it receives and returns the watcher and world), unwrap the result, stop
the watcher, and store the new `{ sources, watcher, result }` under the
cache key and in `lastEntry`.  The final `Bool` records that `fn` was
invoked. -/
def memoMiss (fn : Watcher → World → List Value → Watcher × World × Value)
    (ms : MemoState) (wd : World) (params : List Value) :
    MemoState × World × Value × Bool :=
  let sources := params.map (getSource wd)
  let cacheKey := findObjAddr sources
  let tr := trackAll emptyWatcher wd params
  let fr := fn tr.1 tr.2.1 tr.2.2
  let ur := Watcher.unwrap fr.1 fr.2.1 fr.2.2
  let w4 := ur.1.w.stop
  let newEntry : CacheEntry := ⟨sources, w4, ur.2⟩
  let cacheMap2 :=
    match cacheKey with
    | some k => aset k newEntry ms.cacheMap
    | none => ms.cacheMap
  (⟨cacheMap2, some newEntry⟩, ur.1.wd, ur.2, true)

/-- Embeds one call of the function returned by `memoize` (src/unnamed/
part_004 lines 558-619): return the cached result on a hit without touching
the cache or invoking `fn`, otherwise run the miss path. -/
def memoApply (fn : Watcher → World → List Value → Watcher × World × Value)
    (fuel : Nat) (ms : MemoState) (wd : World) (params : List Value) :
    MemoState × World × Value × Bool :=
  match memoHit fuel ms wd params with
  | some c => (ms, wd, c.result, false)
  | none => memoMiss fn ms wd params

/-- Boolean list-subset (used to order recorded key sets). -/
def subsetB (l1 l2 : List Key) : Bool :=
  l1.all fun k => decide (k ∈ l2)

/-- Order on the `hasOwn` component: `none` (the `kAllOwnKeys` marker) is
the top, individual key sets are ordered by inclusion. -/
def hasOwnLeB : Option (List Key) → Option (List Key) → Bool
  | _, none => true
  | some ks, some ks2 => subsetB ks ks2
  | none, some _ => false

/-- Pointwise order on ledger entries. -/
def entryLeB (e1 e2 : TouchedEntry) : Bool :=
  subsetB e1.keys e2.keys && subsetB e1.has e2.has && hasOwnLeB e1.hasOwn e2.hasOwn

/-- Order on ledger slots: absent is the bottom, the terminal `kSelf`
marker is the top, entries are ordered pointwise.  An operation is
ledger-monotone when every source's slot only moves up in this order. -/
def touchStateLeB : Option TouchState → Option TouchState → Bool
  | none, _ => true
  | some _, none => false
  | some .self, some t => decide (t = .self)
  | some (.entry _), some .self => true
  | some (.entry e1), some (.entry e2) => entryLeB e1 e2

/-- Every facade the watcher handed out: still pending revocation, or
already revoked. -/
def producedProxy (w : Watcher) (p : Nat) : Bool :=
  p ∈ w.revokes || p ∈ w.revoked

/-- Reachable-state invariant: every proxy in `#proxyMap` was pushed onto
`#revokes` when created (and possibly moved to `revoked` by `stop`). -/
def wfProxyMap (w : Watcher) : Bool :=
  w.proxyMap.all fun sp => producedProxy w sp.2

/-- Reachable-state invariant: every `#proxyMap` entry's facade carries the
matching `kSource` back-reference. -/
def wfSources (w : Watcher) (wd : World) : Bool :=
  w.proxyMap.all fun sp => alookup sp.2 wd.proxySource == some sp.1

/-- Concrete state for the C3 counterexample: source 1 is terminal and has
facade 10. -/
def exC3W : Watcher := ⟨[(1, 10)], [(1, .self)], [10], []⟩

/-- Concrete world for the C3 counterexample. -/
def exC3Wd : World := ⟨[(1, ⟨[("a", .prim (.numV 1))], true⟩)], [(10, 1)], 11⟩

/-- Concrete watcher for the C4 counterexample: source 1 observed in full
own-key-enumeration mode, nothing else recorded. -/
def exC4W : Watcher := ⟨[], [(1, .entry ⟨[], [], none⟩)], [], []⟩

/-- Concrete world for the C4 counterexample: objects 1 and 2 own the same
key set `{a, b}` but in different insertion order. -/
def exC4Wd : World :=
  ⟨[(1, ⟨[("a", .prim (.numV 1)), ("b", .prim (.numV 2))], true⟩),
    (2, ⟨[("b", .prim (.numV 2)), ("a", .prim (.numV 1))], true⟩)], [], 20⟩

/-- A one-object cyclic generated structure: object 9's field `me` is
object 9 itself. -/
def exCycWd : World := ⟨[(9, ⟨[("me", .obj 9)], true⟩)], [], 50⟩

/-- A concrete derived-value function for memoize examples: ignore the
facades and return the number 7. -/
def exFn (w : Watcher) (wd : World) (_ : List Value) : Watcher × World × Value :=
  (w, wd, .prim (.numV 7))

/-- A concrete memoize cache whose `lastEntry` holds a zero-argument entry
with result 42. -/
def exMemoHitState : MemoState := ⟨[], some ⟨[], emptyWatcher, .prim (.numV 42)⟩⟩

/-- What one `#unwrap` step preserves: the visited set only grows, the
heap's address list is untouched, and every source's ledger slot only moves
up the `touchStateLeB` order. -/
def uInv (st st2 : UState) : Prop :=
  st.visited ⊆ st2.visited ∧
  st2.wd.heap.map Prod.fst = st.wd.heap.map Prod.fst ∧
  ∀ s, touchStateLeB (alookup s st.w.touched) (alookup s st2.w.touched) = true

theorem alookup_aset_self {α : Type} (a : Nat) (x : α) :
    ∀ m : List (Nat × α), alookup a (aset a x m) = some x
  | [] => by simp [aset, alookup]
  | (b, y) :: rest => by
    by_cases h : a = b
    · simp [aset, h, alookup]
    · simp [aset, h, alookup, alookup_aset_self a x rest]

theorem alookup_aset_ne {α : Type} (a b : Nat) (x : α) (h : b ≠ a) :
    ∀ m : List (Nat × α), alookup b (aset a x m) = alookup b m
  | [] => by simp [aset, alookup, h]
  | (c, y) :: rest => by
    by_cases hc : a = c
    · subst hc
      simp [aset, alookup, h, alookup_aset_ne a b x h rest]
    · simp [aset, hc, alookup, alookup_aset_ne a b x h rest]

theorem hasSameOwnKeys_iff : ∀ l1 l2 : List Key, hasSameOwnKeys l1 l2 = true ↔ l1 = l2
  | [], [] => by simp [hasSameOwnKeys]
  | [], _ :: _ => by simp [hasSameOwnKeys]
  | _ :: _, [] => by simp [hasSameOwnKeys]
  | a :: as2, b :: bs => by
    simp [hasSameOwnKeys, hasSameOwnKeys_iff as2 bs]

theorem isChangedF_obj (fuel : Nat) (w : Watcher) (wd : World) (ao no : Nat) :
    isChangedF (fuel + 1) w wd (.obj ao) (.obj no) =
      (if sourceAddr wd ao = sourceAddr wd no then false
       else
         match alookup (sourceAddr wd ao) w.touched with
         | none => false
         | some .self => true
         | some (.entry e) =>
           ((match e.hasOwn with
             | none =>
               !hasSameOwnKeys (reflectOwnKeys wd.heap (sourceAddr wd ao))
                 (reflectOwnKeys wd.heap (sourceAddr wd no))
             | some ks =>
               ks.any fun k =>
                 hasOwnProp wd.heap (sourceAddr wd ao) k != hasOwnProp wd.heap (sourceAddr wd no) k) ||
            (e.has.any fun k =>
              hasProp wd.heap (sourceAddr wd ao) k != hasProp wd.heap (sourceAddr wd no) k)) ||
           (e.keys.any fun k =>
             isChangedF fuel w wd (reflectGetField wd.heap (sourceAddr wd ao) k)
               (reflectGetField wd.heap (sourceAddr wd no) k))) := by
  simp only [isChangedF]

theorem hasSameOwnKeys_false_iff (l1 l2 : List Key) :
    hasSameOwnKeys l1 l2 = false ↔ l1 ≠ l2 := by
  constructor
  · intro h heq
    have h2 := (hasSameOwnKeys_iff l1 l2).2 heq
    rw [h] at h2
    exact Bool.false_ne_true h2
  · intro h
    cases hs : hasSameOwnKeys l1 l2
    · rfl
    · exact absurd ((hasSameOwnKeys_iff l1 l2).1 hs) h

/-- C1: for object values whose old side resolves to a Source with no
ledger entry (and which is not the new value), `isChanged` answers `false`:
untracked data is treated as unchanged. -/
theorem C1_untracked_treated_unchanged (w : Watcher) (wd : World) (fuel ao no : Nat)
    (hnone : alookup (sourceAddr wd ao) w.touched = none)
    (_hne : Value.obj (sourceAddr wd ao) ≠ Value.obj no) :
    isChangedF (fuel + 1) w wd (.obj ao) (.obj no) = false := by
  rw [isChangedF_obj]
  by_cases h : sourceAddr wd ao = sourceAddr wd no
  · simp [h]
  · simp [h, hnone]

/-- Witness for C1 at a concrete untouched source. -/
theorem C1_witness :
    alookup (sourceAddr exC4Wd 1) emptyWatcher.touched = none ∧
    isChangedF 4 emptyWatcher exC4Wd (.obj 1) (.obj 2) = false := by
  refine ⟨by decide, C1_untracked_treated_unchanged emptyWatcher exC4Wd 3 1 2 (by decide) (by decide)⟩

/-- C3 counterexample: source 1 has a terminal ledger entry and the new
value (its own facade, object 10) is a different object, yet `isChanged`
returns `false` because the fast path compares the two values only after
resolving both to their Sources. -/
theorem C3_counterexample :
    alookup (sourceAddr exC3Wd 1) exC3W.touched = some .self ∧
    Value.obj (sourceAddr exC3Wd 1) ≠ Value.obj 10 ∧
    isChangedF 5 exC3W exC3Wd (.obj 1) (.obj 10) = false := by decide

/-- C3 (amended): when the old value's Source has a terminal ledger entry
and differs from the new value's resolved Source, `isChanged` returns
`true`, however structurally equal the two objects are. -/
theorem C3_terminal_always_changed (w : Watcher) (wd : World) (fuel ao no : Nat)
    (hself : alookup (sourceAddr wd ao) w.touched = some .self)
    (hne : sourceAddr wd ao ≠ sourceAddr wd no) :
    isChangedF (fuel + 1) w wd (.obj ao) (.obj no) = true := by
  rw [isChangedF_obj]
  simp [hne, hself]

/-- Witness for the amended C3 on deeply equal but distinct objects. -/
theorem C3_witness :
    alookup (sourceAddr exC3Wd 1) exC3W.touched = some .self ∧
    isChangedF 5 exC3W { exC3Wd with heap := exC3Wd.heap ++ [(2, ⟨[("a", .prim (.numV 1))], true⟩)] }
      (.obj 1) (.obj 2) = true := by
  refine ⟨by decide, C3_terminal_always_changed exC3W _ 4 1 2 (by decide) (by decide)⟩

/-- C4 counterexample: source 1 was observed in full own-key-enumeration
mode; object 2 owns exactly the same key set `{a, b}` (a permutation, no
key added or removed) and no recorded key was read, yet `isChanged` reports
`true`, because `hasSameOwnKeys` compares the key arrays index by index. -/
theorem C4_counterexample :
    isChangedF 3 exC4W exC4Wd (.obj 1) (.obj 2) = true ∧
    (reflectOwnKeys exC4Wd.heap 1).Perm (reflectOwnKeys exC4Wd.heap 2) := by
  constructor
  · decide
  · decide

/-- C4 (amended): in full own-key-enumeration mode (with no other recorded
access), `isChanged` decides the key-set comparison as order-sensitive
sequence equality of own keys: it reports changed exactly when the own-key
lists differ as ordered lists, while identical key lists with differing
unread values report unchanged. -/
theorem C4_allOwnKeys_order_sensitive (w : Watcher) (wd : World) (fuel ao no : Nat)
    (hentry : alookup (sourceAddr wd ao) w.touched = some (.entry ⟨[], [], none⟩))
    (hne : sourceAddr wd ao ≠ sourceAddr wd no) :
    isChangedF (fuel + 1) w wd (.obj ao) (.obj no) = true ↔
      reflectOwnKeys wd.heap (sourceAddr wd ao) ≠ reflectOwnKeys wd.heap (sourceAddr wd no) := by
  rw [isChangedF_obj]
  simp [hne, hentry, hasSameOwnKeys_false_iff]

/-- Witness for the amended C4: same keys in the same order with changed
unread values is unchanged; the permuted key order is changed. -/
theorem C4_witness :
    (isChangedF 3 exC4W
        { exC4Wd with heap := exC4Wd.heap ++ [(3, ⟨[("a", .prim (.numV 7)), ("b", .prim (.numV 8))], true⟩)] }
        (.obj 1) (.obj 3) = false) ∧
    isChangedF 3 exC4W exC4Wd (.obj 1) (.obj 2) = true := by
  constructor
  · have h := C4_allOwnKeys_order_sensitive exC4W
      { exC4Wd with heap := exC4Wd.heap ++ [(3, ⟨[("a", .prim (.numV 7)), ("b", .prim (.numV 8))], true⟩)] }
      2 1 3 (by decide) (by decide)
    revert h
    decide
  · have h := C4_allOwnKeys_order_sensitive exC4W exC4Wd 2 1 2 (by decide) (by decide)
    revert h
    decide

/-- C5: every mutation attempt on a facade (write, delete, defineProperty,
setPrototypeOf, preventExtensions) is rejected with a thrown error, whether
or not the facade is already revoked: a revoked facade throws outright, and
otherwise the `returnFalse` trap makes the strict-mode operation throw, so
no modified world is ever produced. -/
theorem C5_mutation_always_rejected (w : Watcher) (wd : World) (p : Nat) (op : MutOp) :
    proxyMutate w wd p op = .error () := by
  unfold proxyMutate returnFalse
  split <;> rfl

theorem alookup_mem {α : Type} {a : Nat} {x : α} :
    ∀ {m : List (Nat × α)}, alookup a m = some x → (a, x) ∈ m
  | [], h => by simp [alookup] at h
  | (b, y) :: rest, h => by
    by_cases hb : a = b
    · subst hb
      simp [alookup] at h
      simp [h]
    · simp [alookup, hb] at h
      exact List.mem_cons_of_mem _ (alookup_mem h)

theorem wfSources_spec {w : Watcher} {wd : World} (hwf : wfSources w wd = true)
    {s p : Nat} (h : alookup s w.proxyMap = some p) :
    alookup p wd.proxySource = some s := by
  have hm := alookup_mem h
  have hall := List.all_eq_true.1 hwf _ hm
  exact eq_of_beq hall

theorem wfProxyMap_spec {w : Watcher} (hwf : wfProxyMap w = true)
    {s p : Nat} (h : alookup s w.proxyMap = some p) :
    producedProxy w p = true := by
  have hm := alookup_mem h
  exact List.all_eq_true.1 hwf _ hm

/-- C6: stopping a watcher revokes every facade it produced, so every
subsequent field read on such a facade throws; and `stop` is idempotent.
The middle conjunct ties "facade the watcher produced" to the
`revokes`/`revoked` lists: `[kTrack]` only ever returns the value itself or
a facade registered in them. -/
theorem C6_stop_fails_reads_idempotent (w : Watcher) (wd : World) (k : Key) :
    (∀ p, producedProxy w p = true → proxyGet w.stop wd p k = .error ()) ∧
    (∀ v, wfProxyMap w = true →
      (kTrack w wd v).2.2 = v ∨
      ∃ p, (kTrack w wd v).2.2 = .obj p ∧ producedProxy (kTrack w wd v).1 p = true) ∧
    Watcher.stop (Watcher.stop w) = Watcher.stop w := by
  refine ⟨?_, ?_, ?_⟩
  · intro p hp
    have hmem : p ∈ (Watcher.stop w).revoked := by
      simp only [producedProxy, Bool.or_eq_true, decide_eq_true_eq] at hp
      simp only [Watcher.stop, List.mem_append]
      exact hp.symm
    simp [proxyGet, hmem]
  · intro v hwf
    match v with
    | .prim pm => exact Or.inl rfl
    | .obj a =>
      by_cases hproto : plainProtoOf wd a
      · cases hlk : alookup (sourceAddr wd a) w.proxyMap with
        | some p =>
          refine Or.inr ⟨p, ?_, ?_⟩
          · simp [kTrack, hproto, hlk]
          · simp only [kTrack, hproto, Bool.not_true, Bool.false_eq_true, if_false, hlk]
            exact wfProxyMap_spec hwf hlk
        | none =>
          refine Or.inr ⟨wd.nextAddr, ?_, ?_⟩
          · simp [kTrack, hproto, hlk]
          · simp [kTrack, hproto, hlk, producedProxy]
      · exact Or.inl (by simp [kTrack, hproto])
  · simp [Watcher.stop]

/-- Witness for C6 at a concrete watcher with one facade. -/
theorem C6_witness :
    proxyGet (Watcher.stop exC3W) exC3Wd 10 "a" = .error () ∧
    ((kTrack exC3W exC3Wd (.obj 1)).2.2 = .obj 1 ∨
      ∃ p, (kTrack exC3W exC3Wd (.obj 1)).2.2 = .obj p ∧
        producedProxy (kTrack exC3W exC3Wd (.obj 1)).1 p = true) ∧
    Watcher.stop (Watcher.stop exC3W) = Watcher.stop exC3W := by
  have h := C6_stop_fails_reads_idempotent exC3W exC3Wd "a"
  exact ⟨h.1 10 (by decide), h.2.1 (.obj 1) (by decide), h.2.2⟩

/-- C7: tracking is idempotent on identity: primitives and functions pass
through unchanged, a Source that already has a facade yields that same
facade with no state change, and after a first `[kTrack]` call a second
request — with the original value or with the returned facade itself —
returns the identical facade and changes nothing (no second interception
layer). -/
theorem C7_track_idempotent (w : Watcher) (wd : World) :
    (∀ pm, kTrack w wd (.prim pm) = (w, wd, .prim pm)) ∧
    (∀ a p, plainProtoOf wd a = true → alookup (sourceAddr wd a) w.proxyMap = some p →
      kTrack w wd (.obj a) = (w, wd, .obj p)) ∧
    (∀ a, plainProtoOf wd a = true → a ≠ wd.nextAddr → wfSources w wd = true →
      kTrack (kTrack w wd (.obj a)).1 (kTrack w wd (.obj a)).2.1 (.obj a) =
        kTrack w wd (.obj a) ∧
      kTrack (kTrack w wd (.obj a)).1 (kTrack w wd (.obj a)).2.1 (kTrack w wd (.obj a)).2.2 =
        kTrack w wd (.obj a)) := by
  refine ⟨fun pm => rfl, ?_, ?_⟩
  · intro a p hproto hlk
    simp [kTrack, hproto, hlk]
  · intro a hproto hfresh hwf
    cases hlk : alookup (sourceAddr wd a) w.proxyMap with
    | some p =>
      have hstep : kTrack w wd (.obj a) = (w, wd, .obj p) := by
        simp [kTrack, hproto, hlk]
      rw [hstep]
      have hback : alookup p wd.proxySource = some (sourceAddr wd a) := wfSources_spec hwf hlk
      have hsrcp : sourceAddr wd p = sourceAddr wd a := by
        simp [sourceAddr, hback]
      constructor
      · simp [kTrack, hproto, hlk]
      · have hprotop : plainProtoOf wd p = true := by
          simpa [plainProtoOf, hsrcp] using hproto
        simp [kTrack, hprotop, hsrcp, hlk]
    | none =>
      set s := sourceAddr wd a with hs
      set p := wd.nextAddr with hp
      have hstep : kTrack w wd (.obj a) =
          ({ w with proxyMap := aset s p w.proxyMap, revokes := w.revokes ++ [p] },
           { wd with proxySource := aset p s wd.proxySource, nextAddr := p + 1 },
           .obj p) := by
        simp [kTrack, hproto, hlk, hs, hp]
      rw [hstep]
      have hsa : alookup a (aset p s wd.proxySource) = alookup a wd.proxySource :=
        alookup_aset_ne p a s hfresh _
      have hsrca : sourceAddr { wd with proxySource := aset p s wd.proxySource, nextAddr := p + 1 } a = s := by
        simp only [sourceAddr, hsa]
        exact hs.symm
      have hsrcp : sourceAddr { wd with proxySource := aset p s wd.proxySource, nextAddr := p + 1 } p = s := by
        simp [sourceAddr, alookup_aset_self]
      have hprotoa : plainProtoOf { wd with proxySource := aset p s wd.proxySource, nextAddr := p + 1 } a = true := by
        simp only [plainProtoOf, hsrca]
        simpa [plainProtoOf, hs] using hproto
      have hprotop : plainProtoOf { wd with proxySource := aset p s wd.proxySource, nextAddr := p + 1 } p = true := by
        simp only [plainProtoOf, hsrcp]
        simpa [plainProtoOf, hs] using hproto
      constructor
      · simp [kTrack, hprotoa, hsrca, alookup_aset_self]
      · simp [kTrack, hprotop, hsrcp, alookup_aset_self]

/-- Witness for C7: tracking the same source twice at a concrete state. -/
theorem C7_witness :
    kTrack emptyWatcher exC4Wd (.prim (.funcV 3)) = (emptyWatcher, exC4Wd, .prim (.funcV 3)) ∧
    kTrack (kTrack emptyWatcher exC4Wd (.obj 1)).1 (kTrack emptyWatcher exC4Wd (.obj 1)).2.1 (.obj 1) =
      kTrack emptyWatcher exC4Wd (.obj 1) := by
  have h := C7_track_idempotent emptyWatcher exC4Wd
  exact ⟨h.1 (.funcV 3), (h.2.2 1 (by decide) (by decide) (by decide)).1⟩

/-- C2: unwrapping a value that is itself a facade (its address carries a
`kSource` back-reference to a Source that has a facade registered) returns
the underlying Source, marks that Source's ledger slot terminal, and from
then on any comparison of that Source against an object with a different
resolved Source reports changed. -/
theorem C2_unwrap_facade_marks_terminal (w : Watcher) (wd : World) (a s q : Nat)
    (hsrc : alookup a wd.proxySource = some s)
    (hpm : alookup s w.proxyMap = some q)
    (hss : alookup s wd.proxySource = none) :
    Watcher.unwrap w wd (.obj a) = (⟨setSelfTouched w s, wd, []⟩, .obj s) ∧
    alookup s (setSelfTouched w s).touched = some .self ∧
    (∀ fuel no : Nat, sourceAddr wd no ≠ s →
      isChangedF (fuel + 1) (setSelfTouched w s) wd (.obj s) (.obj no) = true) := by
  refine ⟨?_, ?_, ?_⟩
  · simp [Watcher.unwrap, unwrapGo, sourceAddr, hsrc, hpm]
  · exact alookup_aset_self s .self w.touched
  · intro fuel no hne
    have hs : sourceAddr wd s = s := by simp [sourceAddr, hss]
    rw [isChangedF_obj]
    rw [hs]
    rw [if_neg (fun h => hne h.symm)]
    rw [show (setSelfTouched w s).touched = aset s .self w.touched from rfl]
    rw [alookup_aset_self]

/-- Witness for C2: unwrapping the concrete facade 10 of source 1. -/
theorem C2_witness :
    Watcher.unwrap exC3W exC3Wd (.obj 10) = (⟨setSelfTouched exC3W 1, exC3Wd, []⟩, .obj 1) ∧
    isChangedF 4 (setSelfTouched exC3W 1) exC3Wd (.obj 1) (.obj 2) = true := by
  have h := C2_unwrap_facade_marks_terminal exC3W exC3Wd 10 1 10
    (by decide) (by decide) (by decide)
  exact ⟨h.1, h.2.2 3 2 (by decide)⟩

/-- C8: the memoized function returns the identical cached result, without
invoking `fn` or touching the cache, whenever a prior entry (per-key or
last-call) has the same argument count and the comparator reports no change
for any positional argument; otherwise it runs the miss pipeline: track the
arguments with a fresh watcher, invoke `fn` on the facades, unwrap the
result, stop the watcher, and replace the cache entry (both slots). -/
theorem C8_memoize_hit_and_miss :
    (∀ fn fuel ms wd (params : List Value) c,
      memoLookup ms (params.map (getSource wd)) = some c →
      c.sources.length = (params.map (getSource wd)).length →
      allUnchanged fuel c.cachedWatcher wd c.sources (params.map (getSource wd)) = true →
      memoApply fn fuel ms wd params = (ms, wd, c.result, false)) ∧
    (∀ fn fuel ms wd (params : List Value),
      memoHit fuel ms wd params = none →
      memoApply fn fuel ms wd params =
        (let sources := params.map (getSource wd)
         let tr := trackAll emptyWatcher wd params
         let fr := fn tr.1 tr.2.1 tr.2.2
         let ur := Watcher.unwrap fr.1 fr.2.1 fr.2.2
         let newEntry : CacheEntry := ⟨sources, ur.1.w.stop, ur.2⟩
         (⟨(match findObjAddr sources with
            | some k => aset k newEntry ms.cacheMap
            | none => ms.cacheMap), some newEntry⟩, ur.1.wd, ur.2, true))) := by
  constructor
  · intro fn fuel ms wd params c hlk hlen hall
    have hhit : memoHit fuel ms wd params = some c := by
      simp [memoHit, hlk, hlen, hall]
    simp [memoApply, hhit]
  · intro fn fuel ms wd params hnone
    simp [memoApply, hnone, memoMiss]

/-- Witness for C8: a concrete hit (zero arguments against the cached
zero-argument entry, result 42, `fn` not invoked) and a concrete miss (an
empty cache, `fn` invoked and its unwrapped result 7 stored). -/
theorem C8_witness :
    memoApply exFn 3 exMemoHitState exC4Wd [] =
      (exMemoHitState, exC4Wd, .prim (.numV 42), false) ∧
    memoApply exFn 3 ⟨[], none⟩ exC4Wd [] =
      (⟨[], some ⟨[], emptyWatcher.stop, .prim (.numV 7)⟩⟩, exC4Wd, .prim (.numV 7), true) := by
  have h := C8_memoize_hit_and_miss
  constructor
  · exact h.1 exFn 3 exMemoHitState exC4Wd [] ⟨[], emptyWatcher, .prim (.numV 42)⟩
      (by decide) (by decide) (by decide)
  · have h2 := h.2 exFn 3 ⟨[], none⟩ exC4Wd [] (by decide)
    rw [h2]
    decide

theorem subsetB_iff (l1 l2 : List Key) : subsetB l1 l2 = true ↔ l1 ⊆ l2 := by
  simp [subsetB, List.all_eq_true, List.subset_def]

theorem subsetB_refl (l : List Key) : subsetB l l = true := by
  simp [subsetB_iff]

theorem subsetB_trans {l1 l2 l3 : List Key}
    (h1 : subsetB l1 l2 = true) (h2 : subsetB l2 l3 = true) : subsetB l1 l3 = true := by
  rw [subsetB_iff] at h1 h2 ⊢
  exact h1.trans h2

theorem subset_setAdd {α : Type} [DecidableEq α] (l : List α) (a : α) : l ⊆ setAdd l a := by
  unfold setAdd
  split
  · exact fun x hx => hx
  · exact fun x hx => List.mem_append_left _ hx

theorem subsetB_setAdd (l : List Key) (k : Key) : subsetB l (setAdd l k) = true := by
  rw [subsetB_iff]
  exact subset_setAdd l k

theorem hasOwnLeB_refl (x : Option (List Key)) : hasOwnLeB x x = true := by
  cases x with
  | none => rfl
  | some ks => simp [hasOwnLeB, subsetB_refl]

theorem hasOwnLeB_trans {x y z : Option (List Key)}
    (h1 : hasOwnLeB x y = true) (h2 : hasOwnLeB y z = true) : hasOwnLeB x z = true := by
  cases x <;> cases y <;> cases z <;>
    simp_all [hasOwnLeB] <;> exact subsetB_trans h1 h2

theorem entryLeB_refl (e : TouchedEntry) : entryLeB e e = true := by
  simp [entryLeB, subsetB_refl, hasOwnLeB_refl]

theorem entryLeB_trans {e1 e2 e3 : TouchedEntry}
    (h1 : entryLeB e1 e2 = true) (h2 : entryLeB e2 e3 = true) : entryLeB e1 e3 = true := by
  simp only [entryLeB, Bool.and_eq_true] at h1 h2 ⊢
  exact ⟨⟨subsetB_trans h1.1.1 h2.1.1, subsetB_trans h1.1.2 h2.1.2⟩,
    hasOwnLeB_trans h1.2 h2.2⟩

theorem touchStateLeB_refl (t : Option TouchState) : touchStateLeB t t = true := by
  match t with
  | none => rfl
  | some .self => simp [touchStateLeB]
  | some (.entry e) => simp [touchStateLeB, entryLeB_refl]

theorem touchStateLeB_trans {t1 t2 t3 : Option TouchState}
    (h1 : touchStateLeB t1 t2 = true) (h2 : touchStateLeB t2 t3 = true) :
    touchStateLeB t1 t3 = true := by
  match t1, t2, t3 with
  | none, _, _ => rfl
  | some _, none, _ => simp [touchStateLeB] at h1
  | some _, some _, none => simp [touchStateLeB] at h2
  | some .self, some t2, some t3 =>
    simp only [touchStateLeB, decide_eq_true_eq] at h1
    subst h1
    exact h2
  | some (.entry e1), some .self, some t3 =>
    simp only [touchStateLeB, decide_eq_true_eq] at h2
    subst h2
    rfl
  | some (.entry e1), some (.entry e2), some .self => rfl
  | some (.entry e1), some (.entry e2), some (.entry e3) =>
    exact entryLeB_trans h1 h2

theorem touchStateLeB_self_absorbing {t : Option TouchState}
    (h : touchStateLeB (some .self) t = true) : t = some TouchState.self := by
  match t with
  | none => simp [touchStateLeB] at h
  | some t2 =>
    simp only [touchStateLeB, decide_eq_true_eq] at h
    rw [h]

theorem touched_mono_of_aset {w : Watcher} {s : Nat} {t : TouchState}
    (hle : touchStateLeB (alookup s w.touched) (some t) = true) (s2 : Nat) :
    touchStateLeB (alookup s2 w.touched) (alookup s2 (aset s t w.touched)) = true := by
  by_cases hs : s2 = s
  · subst hs
    rw [alookup_aset_self]
    exact hle
  · rw [alookup_aset_ne s s2 t hs]
    exact touchStateLeB_refl _

theorem touchAddKey_mono (w : Watcher) (s : Nat) (k : Key) (s2 : Nat) :
    touchStateLeB (alookup s2 w.touched) (alookup s2 (touchAddKey w s k).touched) = true := by
  cases h : alookup s w.touched with
  | none =>
    simp only [touchAddKey, h]
    exact touched_mono_of_aset (by rw [h]; rfl) s2
  | some t =>
    cases t with
    | self =>
      simp only [touchAddKey, h]
      exact touchStateLeB_refl _
    | entry e =>
      simp only [touchAddKey, h]
      refine touched_mono_of_aset ?_ s2
      rw [h]
      simp [touchStateLeB, entryLeB, subsetB_setAdd, subsetB_refl, hasOwnLeB_refl]

theorem touchAddHas_mono (w : Watcher) (s : Nat) (k : Key) (s2 : Nat) :
    touchStateLeB (alookup s2 w.touched) (alookup s2 (touchAddHas w s k).touched) = true := by
  cases h : alookup s w.touched with
  | none =>
    simp only [touchAddHas, h]
    exact touched_mono_of_aset (by rw [h]; rfl) s2
  | some t =>
    cases t with
    | self =>
      simp only [touchAddHas, h]
      exact touchStateLeB_refl _
    | entry e =>
      simp only [touchAddHas, h]
      refine touched_mono_of_aset ?_ s2
      rw [h]
      simp [touchStateLeB, entryLeB, subsetB_setAdd, subsetB_refl, hasOwnLeB_refl]

theorem touchAddHasOwn_mono (w : Watcher) (s : Nat) (k : Key) (s2 : Nat) :
    touchStateLeB (alookup s2 w.touched) (alookup s2 (touchAddHasOwn w s k).touched) = true := by
  cases h : alookup s w.touched with
  | none =>
    simp only [touchAddHasOwn, h]
    exact touched_mono_of_aset (by rw [h]; rfl) s2
  | some t =>
    cases t with
    | self =>
      simp only [touchAddHasOwn, h]
      exact touchStateLeB_refl _
    | entry e =>
      cases ho : e.hasOwn with
      | none =>
        simp only [touchAddHasOwn, h, ho]
        exact touchStateLeB_refl _
      | some ks =>
        simp only [touchAddHasOwn, h, ho]
        refine touched_mono_of_aset ?_ s2
        rw [h]
        simp [touchStateLeB, entryLeB, subsetB_refl, ho, hasOwnLeB, subsetB_setAdd]

theorem touchAllOwnKeys_mono (w : Watcher) (s : Nat) (s2 : Nat) :
    touchStateLeB (alookup s2 w.touched) (alookup s2 (touchAllOwnKeys w s).touched) = true := by
  cases h : alookup s w.touched with
  | none =>
    simp only [touchAllOwnKeys, h]
    exact touched_mono_of_aset (by rw [h]; rfl) s2
  | some t =>
    cases t with
    | self =>
      simp only [touchAllOwnKeys, h]
      exact touchStateLeB_refl _
    | entry e =>
      simp only [touchAllOwnKeys, h]
      refine touched_mono_of_aset ?_ s2
      rw [h]
      simp [touchStateLeB, entryLeB, subsetB_refl, hasOwnLeB]

theorem setSelfTouched_mono (w : Watcher) (s : Nat) (s2 : Nat) :
    touchStateLeB (alookup s2 w.touched) (alookup s2 (setSelfTouched w s).touched) = true := by
  refine touched_mono_of_aset ?_ s2
  cases h : alookup s w.touched with
  | none => rfl
  | some t => cases t <;> simp [touchStateLeB]

theorem kTrack_touched (w : Watcher) (wd : World) (v : Value) :
    (kTrack w wd v).1.touched = w.touched := by
  match v with
  | .prim _ => rfl
  | .obj a =>
    by_cases hproto : plainProtoOf wd a
    · cases hlk : alookup (sourceAddr wd a) w.proxyMap <;> simp [kTrack, hproto, hlk]
    · simp [kTrack, hproto]

theorem uInv_refl (st : UState) : uInv st st :=
  ⟨List.Subset.refl _, rfl, fun s => touchStateLeB_refl _⟩

theorem uInv_trans {a b c : UState} (h1 : uInv a b) (h2 : uInv b c) : uInv a c :=
  ⟨h1.1.trans h2.1, h2.2.1.trans h1.2.1,
   fun s => touchStateLeB_trans (h1.2.2 s) (h2.2.2 s)⟩

theorem heapSetField_fst (h : Heap) (a : Nat) (k : Key) (v : Value) :
    (heapSetField h a k v).map Prod.fst = h.map Prod.fst := by
  induction h with
  | nil => rfl
  | cons e rest ih =>
    by_cases he : e.1 = a <;> simp [heapSetField, he] <;>
      simpa [heapSetField] using ih

theorem unwrapFields_inv (rec : UState → Value → UState × Value) (a : Nat)
    (hrec : ∀ st v, uInv st (rec st v).1) :
    ∀ (ks : List Key) (st : UState), uInv st (unwrapFields rec a st ks)
  | [], st => uInv_refl st
  | k :: ks, st => by
    have h1 := hrec st (reflectGetField st.wd.heap a k)
    simp only [unwrapFields]
    by_cases hne : (rec st (reflectGetField st.wd.heap a k)).2 ≠ reflectGetField st.wd.heap a k
    · rw [if_pos hne]
      refine uInv_trans (uInv_trans h1 ?_) (unwrapFields_inv rec a hrec ks _)
      exact ⟨List.Subset.refl _, heapSetField_fst _ _ _ _,
        fun s => touchAddKey_mono _ a k s⟩
    · rw [if_neg hne]
      exact uInv_trans h1 (unwrapFields_inv rec a hrec ks _)

theorem unwrapGo_inv : ∀ (fuel : Nat) (st : UState) (v : Value), uInv st (unwrapGo fuel st v).1
  | 0, st, _ => uInv_refl st
  | fuel + 1, st, v => by
    match v with
    | .prim _ => exact uInv_refl st
    | .obj a =>
      simp only [unwrapGo]
      by_cases hpx : (alookup (sourceAddr st.wd a) st.w.proxyMap).isSome
      · rw [if_pos hpx]
        exact ⟨List.Subset.refl _, rfl, fun s => setSelfTouched_mono st.w _ s⟩
      · rw [if_neg hpx]
        by_cases hv : a ∈ st.visited
        · rw [if_pos hv]
          exact uInv_refl st
        · rw [if_neg hv]
          refine uInv_trans (b := { st with visited := a :: st.visited }) ?_ ?_
          · exact ⟨List.subset_cons_self _ _, rfl, fun s => touchStateLeB_refl _⟩
          · exact unwrapFields_inv _ a (fun st2 v2 => unwrapGo_inv fuel st2 v2) _ _

theorem heapAddrs_eq_of_fst {h1 h2 : Heap} (he : h2.map Prod.fst = h1.map Prod.fst) :
    heapAddrs h2 = heapAddrs h1 := by
  simp [heapAddrs, he]

theorem countP_notmem_mono {vis vis2 : List Nat} (hsub : vis ⊆ vis2) :
    ∀ l : List Nat,
      (l.countP fun x => decide (x ∉ vis2)) ≤ (l.countP fun x => decide (x ∉ vis))
  | [] => Nat.le_refl 0
  | b :: l => by
    rw [List.countP_cons, List.countP_cons]
    have ht := countP_notmem_mono hsub l
    have hhead : (if decide (b ∉ vis2) = true then 1 else 0) ≤
        (if decide (b ∉ vis) = true then 1 else 0) := by
      by_cases hb : b ∈ vis
      · have hb2 : b ∈ vis2 := hsub hb
        simp [hb, hb2]
      · by_cases hb2 : b ∈ vis2 <;> simp [hb, hb2]
    exact Nat.add_le_add ht hhead

theorem unvisitedCount_le_of_uInv {st st2 : UState} (h : uInv st st2) :
    unvisitedCount st2 ≤ unvisitedCount st := by
  unfold unvisitedCount
  rw [heapAddrs_eq_of_fst h.2.1]
  exact countP_notmem_mono h.1 _

theorem countP_cons_lt {a : Nat} {vis : List Nat} :
    ∀ {l : List Nat}, l.Nodup → a ∈ l → a ∉ vis →
      (l.countP fun x => decide (x ∉ a :: vis)) < (l.countP fun x => decide (x ∉ vis))
  | [], _, ha, _ => absurd ha (List.not_mem_nil a)
  | b :: l, hnd, ha, hnv => by
    rw [List.countP_cons, List.countP_cons]
    rcases List.mem_cons.1 ha with hba | hal
    · subst hba
      have htail : (l.countP fun x => decide (x ∉ a :: vis)) ≤
          (l.countP fun x => decide (x ∉ vis)) :=
        countP_notmem_mono (List.subset_cons_self _ _) l
      have hh1 : (decide (a ∉ a :: vis)) = false := by simp
      have hh2 : (decide (a ∉ vis)) = true := by simp [hnv]
      rw [hh1, hh2]
      simp only [Bool.false_eq_true, if_false, if_true, Nat.add_zero]
      exact Nat.lt_succ_of_le htail
    · have hb_ne : b ≠ a := by
        intro hba
        subst hba
        exact (List.nodup_cons.1 hnd).1 hal
      have IH := countP_cons_lt (List.nodup_cons.1 hnd).2 hal hnv
      have hhead : (decide (b ∉ a :: vis)) = (decide (b ∉ vis)) := by
        simp [List.mem_cons, hb_ne]
      rw [hhead]
      cases hd : decide (b ∉ vis)
      · simpa using IH
      · simpa using Nat.add_lt_add_right IH 1

theorem unvisitedCount_visit_lt {st : UState} {a : Nat}
    (ha : a ∈ heapAddrs st.wd.heap) (hnv : a ∉ st.visited) :
    unvisitedCount { st with visited := a :: st.visited } < unvisitedCount st :=
  countP_cons_lt (List.nodup_dedup _) ha hnv

theorem alookup_none_iff {α : Type} (a : Nat) :
    ∀ m : List (Nat × α), alookup a m = none ↔ a ∉ m.map Prod.fst
  | [] => by simp [alookup]
  | (b, y) :: rest => by
    by_cases hb : a = b
    · subst hb
      simp [alookup]
    · simp [alookup, hb, alookup_none_iff a rest, Ne.symm hb]

theorem reflectOwnKeys_not_in_heap {h : Heap} {a : Nat}
    (ha : a ∉ heapAddrs h) : reflectOwnKeys h a = [] := by
  have hnone : alookup a h = none := by
    rw [alookup_none_iff]
    intro hmem
    exact ha (List.mem_dedup.2 hmem)
  simp [reflectOwnKeys, hnone]

theorem unvisitedCount_write (r : UState) (a : Nat) (k : Key) (v : Value) :
    unvisitedCount
      ⟨touchAddKey r.w a k, { r.wd with heap := heapSetField r.wd.heap a k v }, r.visited⟩ =
      unvisitedCount r := by
  show (heapAddrs (heapSetField r.wd.heap a k v)).countP _ = (heapAddrs r.wd.heap).countP _
  rw [heapAddrs_eq_of_fst (heapSetField_fst r.wd.heap a k v)]

theorem unwrapFields_stable (g1 g2 : Nat) (a : Nat)
    (hrec : ∀ st v, unvisitedCount st < g1 → unvisitedCount st < g2 →
      unwrapGo g1 st v = unwrapGo g2 st v) :
    ∀ (ks : List Key) (st : UState), unvisitedCount st < g1 → unvisitedCount st < g2 →
      unwrapFields (fun st2 v2 => unwrapGo g1 st2 v2) a st ks =
        unwrapFields (fun st2 v2 => unwrapGo g2 st2 v2) a st ks
  | [], _, _, _ => rfl
  | k :: ks, st, h1, h2 => by
    have hval := hrec st (reflectGetField st.wd.heap a k) h1 h2
    simp only [unwrapFields]
    rw [← hval]
    have hle : unvisitedCount (unwrapGo g1 st (reflectGetField st.wd.heap a k)).1 ≤
        unvisitedCount st :=
      unvisitedCount_le_of_uInv (unwrapGo_inv g1 st (reflectGetField st.wd.heap a k))
    by_cases hne :
        (unwrapGo g1 st (reflectGetField st.wd.heap a k)).2 ≠ reflectGetField st.wd.heap a k
    · rw [if_pos hne]
      apply unwrapFields_stable g1 g2 a hrec ks
      · rw [unvisitedCount_write]
        omega
      · rw [unvisitedCount_write]
        omega
    · rw [if_neg hne]
      apply unwrapFields_stable g1 g2 a hrec ks <;> omega

theorem unwrapGo_stable : ∀ (g1 g2 : Nat) (st : UState) (v : Value),
    unvisitedCount st < g1 → unvisitedCount st < g2 →
    unwrapGo g1 st v = unwrapGo g2 st v
  | 0, _, _, _, h1, _ => absurd h1 (Nat.not_lt_zero _)
  | _ + 1, 0, _, _, _, h2 => absurd h2 (Nat.not_lt_zero _)
  | f1 + 1, f2 + 1, st, v, h1, h2 => by
    match v with
    | .prim p => rfl
    | .obj a =>
      simp only [unwrapGo]
      by_cases hpx : (alookup (sourceAddr st.wd a) st.w.proxyMap).isSome
      · rw [if_pos hpx, if_pos hpx]
      · rw [if_neg hpx, if_neg hpx]
        by_cases hv : a ∈ st.visited
        · rw [if_pos hv, if_pos hv]
        · rw [if_neg hv, if_neg hv]
          by_cases hmem : a ∈ heapAddrs st.wd.heap
          · have hlt : unvisitedCount { st with visited := a :: st.visited } < unvisitedCount st :=
              unvisitedCount_visit_lt hmem hv
            have hrec : ∀ st2 v2, unvisitedCount st2 < f1 → unvisitedCount st2 < f2 →
                unwrapGo f1 st2 v2 = unwrapGo f2 st2 v2 :=
              fun st2 v2 hh1 hh2 => unwrapGo_stable f1 f2 st2 v2 hh1 hh2
            rw [unwrapFields_stable f1 f2 a hrec _ _ (by omega) (by omega)]
          · have hkeys : reflectOwnKeys st.wd.heap a = [] := reflectOwnKeys_not_in_heap hmem
            show (unwrapFields _ a _ (reflectOwnKeys st.wd.heap a), Value.obj a) =
              (unwrapFields _ a _ (reflectOwnKeys st.wd.heap a), Value.obj a)
            rw [hkeys]
            rfl

/-- C9: `#unwrap` terminates on every derived result, including cyclic
generated structures.  First conjunct: once the fuel exceeds the number of
unvisited heap objects, the result no longer depends on the fuel, i.e. the
recursion needs only boundedly many steps, which is exactly what
`Watcher.unwrap` runs it with.  Second conjunct: a generated object already
in the per-call `visited` set is returned as-is instead of being recursed
into.  Third conjunct: `unwrap` computes on a concrete self-referential
object (object 9 whose field `me` is itself). -/
theorem C9_unwrap_terminates :
    (∀ (f : Nat) (st : UState) (v : Value), unvisitedCount st < f →
      unwrapGo f st v = unwrapGo (unvisitedCount st + 1) st v) ∧
    (∀ (f : Nat) (st : UState) (a : Nat),
      (alookup (sourceAddr st.wd a) st.w.proxyMap).isSome = false → a ∈ st.visited →
      unwrapGo (f + 1) st (.obj a) = (st, .obj a)) ∧
    Watcher.unwrap emptyWatcher exCycWd (.obj 9) = (⟨emptyWatcher, exCycWd, [9]⟩, .obj 9) := by
  refine ⟨?_, ?_, ?_⟩
  · intro f st v hf
    exact unwrapGo_stable f (unvisitedCount st + 1) st v hf (Nat.lt_succ_self _)
  · intro f st a hpx hv
    simp only [unwrapGo]
    rw [if_neg (by rw [hpx]; exact Bool.false_ne_true), if_pos hv]
  · decide

/-- Witness for C9: extra fuel does not change the result on the concrete
cyclic structure, and the visited guard fires on it. -/
theorem C9_witness :
    unwrapGo 7 ⟨emptyWatcher, exCycWd, []⟩ (.obj 9) =
      unwrapGo (unvisitedCount ⟨emptyWatcher, exCycWd, []⟩ + 1) ⟨emptyWatcher, exCycWd, []⟩ (.obj 9) ∧
    unwrapGo 3 ⟨emptyWatcher, exCycWd, [9]⟩ (.obj 9) = (⟨emptyWatcher, exCycWd, [9]⟩, .obj 9) := by
  refine ⟨C9_unwrap_terminates.1 7 ⟨emptyWatcher, exCycWd, []⟩ (.obj 9) (by decide),
    C9_unwrap_terminates.2.1 2 ⟨emptyWatcher, exCycWd, [9]⟩ 9 (by decide) (by decide)⟩

/-- C10: the touch ledger grows monotonically and the terminal state is
absorbing.  `[kTrack]` never touches the ledger; each successful facade
trap (`get`, `has`, `getOwnPropertyDescriptor`, `ownKeys`) and `#unwrap`
(at any fuel) only move each source's slot up the `touchStateLeB` order —
which never drops a recorded key from `keys`/`has`/`hasOwn`, never
downgrades the `kAllOwnKeys` mode, and never leaves the terminal state —
and the final conjunct states that the terminal slot is the top of that
order, so once terminal a slot stays terminal under every one of these
operations.  (`isChanged` is pure in this model and cannot modify the
ledger at all.) -/
theorem C10_ledger_monotone_terminal_absorbing :
    (∀ w wd v, (kTrack w wd v).1.touched = w.touched) ∧
    (∀ w wd p k r, proxyGet w wd p k = .ok r →
      ∀ s, touchStateLeB (alookup s w.touched) (alookup s r.1.touched) = true) ∧
    (∀ w wd p k r, proxyHas w wd p k = .ok r →
      ∀ s, touchStateLeB (alookup s w.touched) (alookup s r.1.touched) = true) ∧
    (∀ w wd p k r, proxyGetOwnDescriptor w wd p k = .ok r →
      ∀ s, touchStateLeB (alookup s w.touched) (alookup s r.1.touched) = true) ∧
    (∀ w wd p r, proxyOwnKeys w wd p = .ok r →
      ∀ s, touchStateLeB (alookup s w.touched) (alookup s r.1.touched) = true) ∧
    (∀ fuel st v s, touchStateLeB (alookup s st.w.touched)
      (alookup s (unwrapGo fuel st v).1.w.touched) = true) ∧
    (∀ t : Option TouchState, touchStateLeB (some .self) t = true →
      t = some TouchState.self) := by
  refine ⟨kTrack_touched, ?_, ?_, ?_, ?_, ?_, fun t => touchStateLeB_self_absorbing⟩
  · intro w wd p k r hok s
    by_cases hrev : p ∈ w.revoked
    · simp [proxyGet, hrev] at hok
    · cases hlk : alookup p wd.proxySource with
      | none => simp [proxyGet, hrev, hlk] at hok
      | some s2 =>
        simp only [proxyGet, hrev, if_false, hlk, Except.ok.injEq] at hok
        rw [← hok, kTrack_touched]
        exact touchAddKey_mono w s2 k s
  · intro w wd p k r hok s
    by_cases hrev : p ∈ w.revoked
    · simp [proxyHas, hrev] at hok
    · cases hlk : alookup p wd.proxySource with
      | none => simp [proxyHas, hrev, hlk] at hok
      | some s2 =>
        simp only [proxyHas, hrev, if_false, hlk, Except.ok.injEq] at hok
        rw [← hok]
        exact touchAddHas_mono w s2 k s
  · intro w wd p k r hok s
    by_cases hrev : p ∈ w.revoked
    · simp [proxyGetOwnDescriptor, hrev] at hok
    · cases hlk : alookup p wd.proxySource with
      | none => simp [proxyGetOwnDescriptor, hrev, hlk] at hok
      | some s2 =>
        simp only [proxyGetOwnDescriptor, hrev, if_false, hlk, Except.ok.injEq] at hok
        rw [← hok]
        exact touchAddHasOwn_mono w s2 k s
  · intro w wd p r hok s
    by_cases hrev : p ∈ w.revoked
    · simp [proxyOwnKeys, hrev] at hok
    · cases hlk : alookup p wd.proxySource with
      | none => simp [proxyOwnKeys, hrev, hlk] at hok
      | some s2 =>
        simp only [proxyOwnKeys, hrev, if_false, hlk, Except.ok.injEq] at hok
        rw [← hok]
        exact touchAllOwnKeys_mono w s2 s
  · intro fuel st v s
    exact (unwrapGo_inv fuel st v).2.2 s

/-- Witness for C10 at concrete states: a tracked object leaves the ledger
alone, a facade read on a terminal source leaves it terminal, unwrap on the
cyclic object only grows the ledger, and the terminal slot is a fixpoint of
the order. -/
theorem C10_witness :
    (kTrack emptyWatcher exC4Wd (.obj 1)).1.touched = emptyWatcher.touched ∧
    touchStateLeB (alookup 1 exC3W.touched) (alookup 1 exC3W.touched) = true ∧
    touchStateLeB (alookup 9 emptyWatcher.touched)
      (alookup 9 (unwrapGo 2 ⟨emptyWatcher, exCycWd, []⟩ (.obj 9)).1.w.touched) = true ∧
    (some TouchState.self : Option TouchState) = some TouchState.self := by
  have h := C10_ledger_monotone_terminal_absorbing
  refine ⟨h.1 emptyWatcher exC4Wd (.obj 1), ?_,
    h.2.2.2.2.2.1 2 ⟨emptyWatcher, exCycWd, []⟩ (.obj 9) 9,
    h.2.2.2.2.2.2 (some .self) (by decide)⟩
  exact h.2.1 exC3W exC3Wd 10 "a" (exC3W, exC3Wd, .prim (.numV 1)) (by rfl) 1

end Sneequals
